import Mathlib

/-!
Verification of the LoFreq SNV-calling pipeline (`scripts/lofreq_snpcaller.py`).

The per-column calling pipeline of `main`, the strand-bias annotation
`add_strandbias_info`, the exclusion-file reader `read_exclude_pos_file`
and the startup checks are embedded as Lean functions.  The external
collaborator modules (`lofreq.pileup`, `lofreq.em`, `lofreq.qual`,
`lofreq_ext.kt_fisher_exact`, `lofreq.utils.prob_to_phredqual`) are not
part of the repository; the pipeline is parameterised over them, and the
pieces of their behaviour that matter here (the pileup column record and
the quality-agnostic caller) are modelled from the specification.
-/

namespace LoFreq

/-- A nucleotide symbol: the four proper bases plus `N` standing for any
ambiguous / non-ACGT symbol. -/
inductive Nuc
  | A | C | G | T | N
deriving DecidableEq, Repr, Inhabited

/-- Whether the symbol is one of the four proper bases (python:
`base in 'ACGT'`). -/
def Nuc.isACGT : Nuc → Bool
  | .N => false
  | _ => true

/-- The fixed `A, C, G, T` iteration order used throughout the program. -/
def ACGT : List Nuc := [.A, .C, .G, .T]

/-- Position of a base in the fixed `A, C, G, T` order (used to state
ordering properties of emitted calls). -/
def altKey : Nuc → ℕ
  | .A => 0
  | .C => 1
  | .G => 2
  | .T => 3
  | .N => 4

/-- A single read observation at a column: observed base, Phred quality
and strand (`fwd = true` means forward strand). -/
structure Obs where
  base : Nuc
  qual : ℕ
  fwd : Bool
deriving DecidableEq, Repr, Inhabited

/-- Modelled from the spec: `lofreq.pileup.PileupColumn` (module not under
`src/`).  Immutable per-position record: chromosome, zero-based
coordinate, reference base, consensus base, and the multiset of read
observations with quality and strand. -/
structure PileupColumn where
  chrom : String
  coord : ℕ
  ref_base : Nuc
  cons_base : Nuc
  obs : List Obs
deriving DecidableEq, Repr, Inhabited

/-- Modelled from the spec: per-base count at a minimum-quality filter
(`base_counts(min_qual, with_strand)`: observations of the base with
quality `≥ min_qual`). -/
def PileupColumn.count (pc : PileupColumn) (min_qual : ℕ) (b : Nuc) : ℕ :=
  pc.obs.countP (fun o => decide (o.base = b) && decide (min_qual ≤ o.qual))

/-- Modelled from the spec: `PileupColumn.get_counts_for_base(base,
min_qual, keep_strand_info=True)`: strand-split `(fwd, rev)` counts of a
base at quality `≥ min_qual`. -/
def PileupColumn.get_counts_for_base (pc : PileupColumn) (b : Nuc) (min_qual : ℕ) :
    ℕ × ℕ :=
  (pc.obs.countP (fun o => decide (o.base = b) && decide (min_qual ≤ o.qual) && o.fwd),
   pc.obs.countP (fun o => decide (o.base = b) && decide (min_qual ≤ o.qual) && !o.fwd))

/-- The per-base counts dictionary over `{A,C,G,T}`, i.e. the result of
`get_all_base_counts(min_qual=3, keep_strand_info=False)` after
`del base_counts['N']` (`main`, lines 622-624 and 542-544). -/
structure BaseCounts where
  a : ℕ
  c : ℕ
  g : ℕ
  t : ℕ
deriving DecidableEq, Repr, Inhabited

/-- Dictionary lookup in a `BaseCounts` (the `N` key has been deleted, so
`N` maps to zero; the program never queries it). -/
def BaseCounts.get : BaseCounts → Nuc → ℕ
  | bc, .A => bc.a
  | bc, .C => bc.c
  | bc, .G => bc.g
  | bc, .T => bc.t
  | _, .N => 0

/-- `sum(base_counts.values())` after the `N` entry was deleted. -/
def BaseCounts.total (bc : BaseCounts) : ℕ := bc.a + bc.c + bc.g + bc.t

/-- The base counts of a column at `min_qual = 3` with `N` dropped, as
computed at the top of both the training and the calling loop. -/
def PileupColumn.baseCounts3 (pc : PileupColumn) : BaseCounts :=
  ⟨pc.count 3 .A, pc.count 3 .C, pc.count 3 .G, pc.count 3 .T⟩

/-- Coverage at `min_qual = 3` with `N` dropped
(`sum(base_counts.values())` in `main`). -/
def PileupColumn.coverage3 (pc : PileupColumn) : ℕ := pc.baseCounts3.total

/-- Modelled from the spec: `get_base_and_qual_hist(keep_strand_info=False)`
with the `N` entry deleted: for each proper base, quality value to count
of observations. -/
def PileupColumn.histNoN (pc : PileupColumn) (b : Nuc) (q : ℕ) : ℕ :=
  if b = .N then 0
  else pc.obs.countP (fun o => decide (o.base = b) && decide (o.qual = q))

/-- The `info["type"]` tag attached to every emitted call. -/
inductive VType
  | lowFreqVar
  | consensusVar
deriving DecidableEq, Repr, Inhabited

/-- A Phred-scaled value, or the string `"NA"` used as sentinel. -/
inductive PhredOrNA
  | NA
  | val (z : ℤ)
deriving DecidableEq, Repr, Inhabited

/-- A SNV call record (`snp.ExtSNP`): coordinate, wildtype (`ref`),
variant (`alt`), frequency, chromosome, and the `info` entries the
pipeline reads or writes.  Absent dictionary keys are `none`. -/
structure SNPCall where
  coord : ℕ
  wildtype : Nuc
  variant : Nuc
  freq : ℚ
  chrom : String
  vtype : Option VType
  pvalue : Option ℚ
  sb_pvalue : Option ℚ
  sb_phred : Option PhredOrNA
  pvalue_phred : Option PhredOrNA
deriving DecidableEq, Repr, Inhabited

/-- The command-line options consumed by the embedded parts of `main`. -/
structure Opts where
  lofreq_nq_on : Bool
  lofreq_q_on : Bool
  ign_bases_below_q : ℕ
  noncons_filter_qual : ℕ
  fsnp : String
  test_sensitivity : Bool
  em_error_prob_file : Option String
  fexclude : Option String
  fpileup : Option String
deriving Inhabited

/-- The external collaborators of `main` that are not part of this
repository: the two per-column callers (`em.EmBasedSNPCaller` /
`qual.QualBasedSNPCaller`, each `call_snp_in_column`), the Fisher exact
test (`lofreq_ext.kt_fisher_exact`, `error` models a raised
`ValueError`) and the Phred scaling (`lofreq.utils.prob_to_phredqual`). -/
structure Env where
  nqCall : ℕ → BaseCounts → Nuc → List SNPCall
  qCall : ℕ → (Nuc → ℕ → ℕ) → Nuc → List SNPCall
  fisher : ℕ × ℕ → ℕ × ℕ → Except Unit ℚ
  p2phred : ℚ → ℤ

/-- Candidate selection of `main` (lines 649-673): start from the empty
list, let the NQ caller produce candidates when enabled, and invoke the
Q caller (overwriting the candidate list) when it is enabled and either
NQ is disabled or the current candidate list is non-empty. -/
def columnCandidates (nq_on q_on : Bool) (nqRes qRes : List SNPCall) :
    List SNPCall :=
  let new_snps : List SNPCall := []
  let new_snps := if nq_on then nqRes else new_snps
  if q_on then
    if !nq_on || new_snps.length != 0 then qRes else new_snps
  else new_snps

/-- The consensus-variant call synthesized when the column's consensus
base differs from the pileup reference base (`main`, lines 632-647):
wildtype is the original reference, variant is the consensus, frequency
is the consensus count over coverage at `min_qual = 3` with `N`
dropped. -/
def consVarSnp (pc : PileupColumn) : Option SNPCall :=
  if pc.cons_base ≠ pc.ref_base then
    some { coord := pc.coord
           wildtype := pc.ref_base
           variant := pc.cons_base
           freq := (pc.baseCounts3.get pc.cons_base : ℚ) / (pc.coverage3 : ℚ)
           chrom := pc.chrom
           vtype := some .consensusVar
           pvalue := none
           sb_pvalue := none
           sb_phred := none
           pvalue_phred := none }
  else none

/-- Tag a caller candidate with `info["type"] = 'low-freq-var'`
(`main`, lines 678-679). -/
def setLowFreq (s : SNPCall) : SNPCall := { s with vtype := some .lowFreqVar }

/-- Merge step of `main` (lines 678-685): tag every candidate as a
low-frequency variant; when a consensus-variant call exists, drop every
candidate whose variant equals its wildtype (the original reference
base) and append the consensus-variant call at the end. -/
def mergeCalls (consVar : Option SNPCall) (cands : List SNPCall) : List SNPCall :=
  let cands := cands.map setLowFreq
  match consVar with
  | some cv => (cands.filter (fun s => decide (s.variant ≠ cv.wildtype))) ++ [cv]
  | none => cands

/-- `add_strandbias_info` (lines 310-336): on a raised `ValueError` the
two-tailed p-value becomes the sentinel `-1`; the call's
`strandbias-pvalue-uncorr` is set to the p-value and its Phred scaling
to `"NA"` for the sentinel, `prob_to_phredqual` otherwise. -/
def add_strandbias_info (fisherRes : Except Unit ℚ) (p2phred : ℚ → ℤ)
    (s : SNPCall) : SNPCall :=
  let fisher_twotail_pvalue : ℚ := match fisherRes with
    | .ok p => p
    | .error _ => -1
  { s with
    sb_pvalue := some fisher_twotail_pvalue
    sb_phred := some (if fisher_twotail_pvalue = -1 then .NA
                      else .val (p2phred fisher_twotail_pvalue)) }

/-- A call as emitted by the pipeline together with the `DP4` tuple
passed to the VCF record. -/
structure EmittedCall where
  call : SNPCall
  dp4 : ℕ × ℕ × ℕ × ℕ
deriving DecidableEq, Repr, Inhabited

/-- Per-call emission step of `main` (lines 688-727): set the
chromosome; pick the quality filters by mode (`Q` enabled: reference
filter `ign_bases_below_q`, variant filter
`max(ign_bases_below_q, noncons_filter_qual)`; otherwise both zero);
take strand-split counts for wildtype and variant at those filters; add
strand-bias info; Phred-scale the p-value for low-frequency variants
(`"NA"` for consensus variants); and record
`DP4 = (ref_fwd, ref_rev, var_fwd, var_rev)`. -/
def emitCall (env : Env) (opts : Opts) (pc : PileupColumn) (s0 : SNPCall) :
    EmittedCall :=
  let s := { s0 with chrom := pc.chrom }
  let ref_qf := if opts.lofreq_q_on then opts.ign_bases_below_q else 0
  let var_qf := if opts.lofreq_q_on
                then max opts.ign_bases_below_q opts.noncons_filter_qual else 0
  let ref_counts := pc.get_counts_for_base s.wildtype ref_qf
  let var_counts := pc.get_counts_for_base s.variant var_qf
  let s := add_strandbias_info (env.fisher ref_counts var_counts) env.p2phred s
  let s := { s with
    pvalue_phred := some (if s.vtype = some .lowFreqVar
                          then .val (env.p2phred (s.pvalue.getD 0))
                          else .NA) }
  { call := s
    dp4 := (ref_counts.1, ref_counts.2, var_counts.1, var_counts.2) }

/-- Outcome of processing one pileup column in the calling loop. -/
inductive ColOutcome
  | skippedExcluded
  | skippedAmbiguous
  | skippedZeroCov
  | emitted (calls : List EmittedCall)
deriving DecidableEq, Repr, Inhabited

/-- One iteration of the calling loop of `main` (lines 600-737): skip
excluded coordinates; skip (and count) ambiguous consensus bases; skip
zero-coverage columns; otherwise run the enabled callers, merge the
consensus variant, and emit every surviving call. -/
def processColumn (env : Env) (opts : Opts) (excl : Finset ℕ)
    (pc : PileupColumn) : ColOutcome :=
  if pc.coord ∈ excl then .skippedExcluded
  else if pc.cons_base.isACGT = false then .skippedAmbiguous
  else if pc.coverage3 = 0 then .skippedZeroCov
  else
    let nqRes := env.nqCall pc.coord pc.baseCounts3 pc.cons_base
    let qRes := env.qCall pc.coord pc.histNoN pc.cons_base
    let cands := columnCandidates opts.lofreq_nq_on opts.lofreq_q_on nqRes qRes
    .emitted ((mergeCalls (consVarSnp pc) cands).map (emitCall env opts pc))

/-- The calls a column contributes to the output stream (skipped columns
contribute nothing). -/
def emissionOf (env : Env) (opts : Opts) (excl : Finset ℕ)
    (pc : PileupColumn) : List EmittedCall :=
  match processColumn env opts excl pc with
  | .emitted calls => calls
  | _ => []

/-- The calling loop over the whole column stream: emitted calls in
input order together with the ambiguous-reference counter
(`num_ambigious_ref`). -/
def processStream (env : Env) (opts : Opts) (excl : Finset ℕ) :
    List PileupColumn → List EmittedCall × ℕ
  | [] => ([], 0)
  | pc :: rest =>
    let r := processStream env opts excl rest
    let inc := match processColumn env opts excl pc with
      | .skippedAmbiguous => 1
      | _ => 0
    (emissionOf env opts excl pc ++ r.1, inc + r.2)

/-- Whether a column is usable for EM training (`main`, lines 531-548):
coordinate not excluded, consensus base unambiguous, and coverage at
`min_qual = 3` with `N` dropped at least the training minimum. -/
def tUsable (excl : Finset ℕ) (minCov : ℕ) (pc : PileupColumn) : Bool :=
  decide (pc.coord ∉ excl) && pc.cons_base.isACGT &&
    decide (minCov ≤ pc.coverage3)

/-- Result of pulling pileup lines for EM training: the buffered pulled
lines, the selected training sample (base counts and consensus
sequence), and the remaining unread stream. -/
structure TrainPull where
  buffer : List PileupColumn
  sample : List BaseCounts
  consSeq : List Nuc
  rest : List PileupColumn
deriving DecidableEq, Repr, Inhabited

/-- Training pull loop of `main` (lines 524-554), with `cnt` the number
of sample columns selected so far: every pulled line is buffered; a
usable column is added to the sample; pulling stops as soon as the
sample reaches the configured size, or the stream ends. -/
def trainPullAux (excl : Finset ℕ) (minCov size : ℕ) (cnt : ℕ) :
    List PileupColumn → TrainPull
  | [] => ⟨[], [], [], []⟩
  | pc :: rest =>
    if tUsable excl minCov pc then
      if size ≤ cnt + 1 then ⟨[pc], [pc.baseCounts3], [pc.cons_base], rest⟩
      else
        let r := trainPullAux excl minCov size (cnt + 1) rest
        ⟨pc :: r.buffer, pc.baseCounts3 :: r.sample, pc.cons_base :: r.consSeq,
         r.rest⟩
    else
      let r := trainPullAux excl minCov size cnt rest
      ⟨pc :: r.buffer, r.sample, r.consSeq, r.rest⟩

/-- The training pull starting from an empty sample. -/
def trainPull (excl : Finset ℕ) (minCov size : ℕ)
    (cols : List PileupColumn) : TrainPull :=
  trainPullAux excl minCov size 0 cols

/-- Outcome of the training stage. -/
inductive TrainResult
  | fatal (code : ℕ)
  | trained (tp : TrainPull)
  | skippedTraining
deriving DecidableEq, Repr, Inhabited

/-- The training stage of `main` (lines 519-575): runs only when the NQ
caller is enabled and no pre-computed error-probability file was given;
exits with code 1 when the pileup was empty or when no usable column was
found. -/
def trainStage (opts : Opts) (excl : Finset ℕ) (minCov size : ℕ)
    (cols : List PileupColumn) : TrainResult :=
  if opts.lofreq_nq_on && opts.em_error_prob_file.isNone then
    let r := trainPull excl minCov size cols
    if r.buffer.isEmpty then .fatal 1
    else if r.sample.isEmpty then .fatal 1
    else .trained r
  else .skippedTraining

/-- The startup checks of `main` (lines 379-467), in source order; the
result is `some code` when the program exits before any pileup
processing (`parser.error` exits with code 2, `LOG.fatal` paths with
code 1, the hidden sensitivity test with 0), `none` when processing
proceeds.  `fileExists` models `os.path.exists`. -/
def startup (opts : Opts) (hasArgs : Bool) (fileExists : String → Bool) :
    Option ℕ :=
  if hasArgs then some 2
  else if opts.test_sensitivity then some 0
  else if opts.fsnp.isEmpty then some 2
  else if opts.fsnp ≠ "-" && fileExists opts.fsnp then some 1
  else if !opts.lofreq_nq_on && !opts.lofreq_q_on then some 2
  else if (match opts.fexclude with
           | some f => !fileExists f
           | none => false) then some 1
  else if (match opts.em_error_prob_file with
           | some f => !fileExists f
           | none => false) then some 1
  else if (match opts.fpileup with
           | some f => decide (f ≠ "-") && !fileExists f
           | none => false) then some 1
  else none

/-- Overall result of a program run: an early exit with a code, or a
completed run with its emitted calls and final exit code. -/
inductive MainResult
  | exited (code : ℕ)
  | ran (output : List EmittedCall) (code : ℕ)
deriving Inhabited

/-- The whole program: startup checks, then the training stage (which
buffers the consumed lines), then the calling loop over the buffered
lines concatenated with the remaining stream (`itertools.chain`,
line 600); an empty pileup exits with code 1. -/
def runProgram (env : Env) (opts : Opts) (hasArgs : Bool)
    (fileExists : String → Bool) (excl : Finset ℕ) (minCov size : ℕ)
    (cols : List PileupColumn) : MainResult :=
  match startup opts hasArgs fileExists with
  | some code => .exited code
  | none =>
    match trainStage opts excl minCov size cols with
    | .fatal code => .exited code
    | .trained tp =>
      let r := processStream env opts excl (tp.buffer ++ tp.rest)
      .ran r.1 (if (tp.buffer ++ tp.rest).isEmpty then 1 else 0)
    | .skippedTraining =>
      let r := processStream env opts excl cols
      .ran r.1 (if cols.isEmpty then 1 else 0)

/-- One line of an exclusion file, tokenized: a comment line (first
character `#`), a whitespace-only line, or a data line whose whitespace
tokens all parse as integers. -/
inductive ExLine
  | comment
  | blank
  | data (toks : List ℤ)
deriving DecidableEq, Repr, Inhabited

/-- How `read_exclude_pos_file` aborts: a failed `assert start < end`
(`AssertionError`) or a missing token (`IndexError` from
`line.split()[k]`). -/
inductive ParseAbort
  | assertionError
  | indexError
deriving DecidableEq, Repr, Inhabited

/-- `read_exclude_pos_file` (lines 81-104): skip comment and blank
lines; take the first two tokens of every other line as `start` and
`end`, ignoring the rest; assert `start < end`; accumulate
`range(start, end)`; return the union as a set. -/
def read_exclude_pos_file : List ExLine → Except ParseAbort (Finset ℤ)
  | [] => .ok ∅
  | .comment :: rest => read_exclude_pos_file rest
  | .blank :: rest => read_exclude_pos_file rest
  | .data toks :: rest =>
    match toks with
    | s :: e :: _ =>
      if s < e then
        match read_exclude_pos_file rest with
        | .ok acc => .ok (Finset.Ico s e ∪ acc)
        | .error err => .error err
      else .error .assertionError
    | _ => .error .indexError

/-- Whether a tokenized line is well-formed in the sense of claim C8:
any comment or blank line, or a data line with at least two tokens whose
first token is strictly below its second. -/
def dataLineOK : ExLine → Bool
  | .data (s :: e :: _) => decide (s < e)
  | .data _ => false
  | _ => true

/-- Whether a tokenized data line has at least the two required
tokens. -/
def dataLineHasTwo : ExLine → Bool
  | .data (_ :: _ :: _) => true
  | .data _ => false
  | _ => true

/-- Modelled from the spec: the binomial upper tail `P(X ≥ k)` for `n`
trials with success probability `e` (the Poisson-binomial of §4.2 in
the homogeneous case used by the NQ caller). -/
def binomTail (n k : ℕ) (e : ℚ) : ℚ :=
  (((List.range (n + 1)).drop k).map
    (fun j => (n.choose j : ℚ) * e ^ j * (1 - e) ^ (n - j))).sum

/-- Modelled from the spec: `em.EmBasedSNPCaller.call_snp_in_column`
(module `lofreq.em` is not under `src/`).  §4.6: for each candidate
variant `v ≠ cons_base` in fixed `A, C, G, T` order with a positive
count, the p-value is the binomial tail `P(X ≥ count v)` over `coverage`
trials with the error probability `e_{cons→v}`; the call is reported iff
`p · sig_thresh < 1 / bonf`, with `ref = cons_base`, `alt = v` and
`freq = count v / coverage`. -/
def nqCallerSpec (errProb : Nuc → Nuc → ℚ) (bonf : ℕ) (sig : ℚ)
    (coord : ℕ) (bc : BaseCounts) (cons : Nuc) : List SNPCall :=
  (ACGT.filter (fun v => decide (v ≠ cons) && decide (bc.get v ≠ 0))).filterMap
    (fun v =>
      let n := bc.total
      let p := binomTail n (bc.get v) (errProb cons v)
      if p * sig < 1 / (bonf : ℚ) then
        some { coord := coord
               wildtype := cons
               variant := v
               freq := (bc.get v : ℚ) / (n : ℚ)
               chrom := ""
               vtype := none
               pvalue := some p
               sb_pvalue := none
               sb_phred := none
               pvalue_phred := none }
      else none)

/-! ### Concrete instances used to exercise the pipeline -/

/-- A fixed low-frequency candidate call used in concrete instantiations
of the external callers. -/
def callW : SNPCall :=
  { coord := 0
    wildtype := .A
    variant := .C
    freq := 0
    chrom := ""
    vtype := none
    pvalue := some 0
    sb_pvalue := none
    sb_phred := none
    pvalue_phred := none }

/-- A concrete environment whose callers report the single candidate
`callW` and whose Fisher test succeeds with p-value 0. -/
def envW : Env :=
  { nqCall := fun _ _ _ => [callW]
    qCall := fun _ _ _ => [callW]
    fisher := fun _ _ => .ok 0
    p2phred := fun _ => 0 }

/-- A concrete environment whose Fisher test raises (`ValueError`). -/
def envErrW : Env :=
  { nqCall := fun _ _ _ => [callW]
    qCall := fun _ _ _ => [callW]
    fisher := fun _ _ => .error ()
    p2phred := fun _ => 0 }

/-- Options with only the quality-agnostic caller enabled. -/
def optsNQW : Opts :=
  { lofreq_nq_on := true
    lofreq_q_on := false
    ign_bases_below_q := 13
    noncons_filter_qual := 20
    fsnp := "-"
    test_sensitivity := false
    em_error_prob_file := none
    fexclude := none
    fpileup := none }

/-- Options with only the quality-aware caller enabled. -/
def optsQW : Opts :=
  { lofreq_nq_on := false
    lofreq_q_on := true
    ign_bases_below_q := 13
    noncons_filter_qual := 20
    fsnp := "-"
    test_sensitivity := false
    em_error_prob_file := none
    fexclude := none
    fpileup := none }

/-- Options whose variant output path names an already existing file. -/
def optsC9W : Opts :=
  { lofreq_nq_on := true
    lofreq_q_on := true
    ign_bases_below_q := 3
    noncons_filter_qual := 20
    fsnp := "out.snp"
    test_sensitivity := false
    em_error_prob_file := none
    fexclude := none
    fpileup := none }

/-- A filesystem on which exactly the file `out.snp` exists. -/
def fexW : String → Bool := fun s => s == "out.snp"

/-- A column whose consensus equals the reference, with mixed qualities
and strands. -/
def pcW : PileupColumn :=
  { chrom := "c"
    coord := 0
    ref_base := .A
    cons_base := .A
    obs := [⟨.A, 30, true⟩, ⟨.A, 14, false⟩, ⟨.C, 30, true⟩, ⟨.C, 5, false⟩] }

/-- A column whose consensus (A) differs from the reference (G). -/
def pcCvW : PileupColumn :=
  { chrom := "c"
    coord := 0
    ref_base := .G
    cons_base := .A
    obs := [⟨.A, 30, true⟩, ⟨.A, 14, false⟩, ⟨.C, 30, true⟩, ⟨.C, 5, false⟩] }

/-- A column with an ambiguous consensus base. -/
def pcAmbW : PileupColumn :=
  { chrom := "c"
    coord := 0
    ref_base := .A
    cons_base := .N
    obs := [⟨.A, 30, true⟩] }

/-- A column with no observations at all (zero coverage). -/
def pcEmptyW : PileupColumn :=
  { chrom := "c"
    coord := 0
    ref_base := .A
    cons_base := .A
    obs := [] }

/-- The column of the ordering counterexample: reference G, consensus A,
two A reads and one C read, all forward at quality 30. -/
def pcol3 : PileupColumn :=
  { chrom := "c"
    coord := 0
    ref_base := .G
    cons_base := .A
    obs := [⟨.A, 30, true⟩, ⟨.A, 30, true⟩, ⟨.C, 30, true⟩] }

/-- The environment of the ordering counterexample: the spec-modelled NQ
caller with a uniform error probability of 1/2, Bonferroni factor 1 and
significance threshold 1. -/
def env3 : Env :=
  { nqCall := nqCallerSpec (fun _ _ => (1 : ℚ)/2) 1 1
    qCall := fun _ _ _ => []
    fisher := fun _ _ => .error ()
    p2phred := fun _ => 0 }

/-- The single candidate the spec-modelled NQ caller produces on
`pcol3`: variant C with count 1 out of coverage 3. -/
def cCall : SNPCall :=
  { coord := 0
    wildtype := .A
    variant := .C
    freq := ((1 : ℕ) : ℚ) / ((3 : ℕ) : ℚ)
    chrom := ""
    vtype := none
    pvalue := some (binomTail 3 1 ((1 : ℚ)/2))
    sb_pvalue := none
    sb_phred := none
    pvalue_phred := none }

/-- A well-formed exclusion file: a comment, the range `[0, 2)` with a
trailing token, a blank line, and the range `[5, 6)`. -/
def exLinesW : List ExLine :=
  [.comment, .data [0, 2, 7], .blank, .data [5, 6]]

/-- An exclusion file containing an empty range (`start == end`). -/
def exLinesBadW : List ExLine :=
  [.comment, .data [3, 3, 9]]

/-! ### Helper lemmas -/

theorem emitCall_call_wildtype (env : Env) (opts : Opts) (pc : PileupColumn)
    (s : SNPCall) : (emitCall env opts pc s).call.wildtype = s.wildtype := rfl

theorem emitCall_call_variant (env : Env) (opts : Opts) (pc : PileupColumn)
    (s : SNPCall) : (emitCall env opts pc s).call.variant = s.variant := rfl

theorem emitCall_call_vtype (env : Env) (opts : Opts) (pc : PileupColumn)
    (s : SNPCall) : (emitCall env opts pc s).call.vtype = s.vtype := rfl

theorem emitCall_call_freq (env : Env) (opts : Opts) (pc : PileupColumn)
    (s : SNPCall) : (emitCall env opts pc s).call.freq = s.freq := rfl

theorem setLowFreq_variant (s : SNPCall) : (setLowFreq s).variant = s.variant := rfl

theorem setLowFreq_vtype (s : SNPCall) :
    (setLowFreq s).vtype = some VType.lowFreqVar := rfl

theorem vtype_of_mem_setLowFreq {l : List SNPCall} {s : SNPCall}
    (h : s ∈ l.map setLowFreq) : s.vtype = some VType.lowFreqVar := by
  obtain ⟨a, -, rfl⟩ := List.mem_map.1 h
  rfl

theorem processColumn_emitted (env : Env) (opts : Opts) (excl : Finset ℕ)
    (pc : PileupColumn) (hex : pc.coord ∉ excl)
    (hacgt : pc.cons_base.isACGT = true) (hcov : pc.coverage3 ≠ 0) :
    processColumn env opts excl pc =
      .emitted ((mergeCalls (consVarSnp pc)
        (columnCandidates opts.lofreq_nq_on opts.lofreq_q_on
          (env.nqCall pc.coord pc.baseCounts3 pc.cons_base)
          (env.qCall pc.coord pc.histNoN pc.cons_base))).map
            (emitCall env opts pc)) := by
  unfold processColumn
  rw [if_neg hex, if_neg (by simp [hacgt]), if_neg hcov]

theorem emissionOf_emitted (env : Env) (opts : Opts) (excl : Finset ℕ)
    (pc : PileupColumn) (hex : pc.coord ∉ excl)
    (hacgt : pc.cons_base.isACGT = true) (hcov : pc.coverage3 ≠ 0) :
    emissionOf env opts excl pc =
      (mergeCalls (consVarSnp pc)
        (columnCandidates opts.lofreq_nq_on opts.lofreq_q_on
          (env.nqCall pc.coord pc.baseCounts3 pc.cons_base)
          (env.qCall pc.coord pc.histNoN pc.cons_base))).map
            (emitCall env opts pc) := by
  unfold emissionOf
  rw [processColumn_emitted env opts excl pc hex hacgt hcov]

theorem consVarSnp_eq (pc : PileupColumn) (hne : pc.cons_base ≠ pc.ref_base) :
    consVarSnp pc =
      some { coord := pc.coord
             wildtype := pc.ref_base
             variant := pc.cons_base
             freq := (pc.baseCounts3.get pc.cons_base : ℚ) / (pc.coverage3 : ℚ)
             chrom := pc.chrom
             vtype := some .consensusVar
             pvalue := none
             sb_pvalue := none
             sb_phred := none
             pvalue_phred := none } := by
  unfold consVarSnp
  rw [if_pos hne]

theorem consVarSnp_vtype {pc : PileupColumn} {cv : SNPCall}
    (h : consVarSnp pc = some cv) : cv.vtype = some VType.consensusVar := by
  unfold consVarSnp at h
  split at h
  · cases h
    rfl
  · cases h

theorem columnCandidates_eq (nq_on q_on : Bool) (nqRes qRes : List SNPCall) :
    columnCandidates nq_on q_on nqRes qRes =
      if q_on && (!nq_on || !nqRes.isEmpty) then qRes
      else if nq_on then nqRes else [] := by
  cases nq_on <;> cases q_on <;> cases nqRes <;> simp [columnCandidates]

/-! ### Claim theorems -/

/-- C1: in the CALL stage the quality-aware caller's result is used if
and only if the Q caller is enabled and either the NQ caller is disabled
or the NQ caller produced at least one candidate; when it is used it
completely replaces the NQ candidate list (otherwise the candidates are
the NQ result when NQ is enabled and empty when it is not). -/
theorem qcaller_override_iff (nq_on q_on : Bool) (nqRes qRes : List SNPCall) :
    columnCandidates nq_on q_on nqRes qRes =
      if q_on && (!nq_on || !nqRes.isEmpty) then qRes
      else if nq_on then nqRes else [] :=
  columnCandidates_eq nq_on q_on nqRes qRes

/-- C5: in the CALL stage an excluded coordinate is skipped, an
ambiguous consensus base is skipped with the ambiguous-reference counter
incremented (exclusion skips do not touch the counter), a zero-coverage
column (counted at min-quality 3 with N dropped) is skipped, and each of
these per-column events leaves the processing of the remaining stream
intact. -/
theorem call_stage_skips (env : Env) (opts : Opts) (excl : Finset ℕ)
    (pc : PileupColumn) (cols : List PileupColumn) :
    (pc.coord ∈ excl → processColumn env opts excl pc = .skippedExcluded) ∧
    (pc.coord ∉ excl → pc.cons_base.isACGT = false →
      processColumn env opts excl pc = .skippedAmbiguous) ∧
    (pc.coord ∉ excl → pc.cons_base.isACGT = true → pc.coverage3 = 0 →
      processColumn env opts excl pc = .skippedZeroCov) ∧
    (processStream env opts excl (pc :: cols)).1 =
      emissionOf env opts excl pc ++ (processStream env opts excl cols).1 ∧
    (processStream env opts excl (pc :: cols)).2 =
      (if processColumn env opts excl pc = .skippedAmbiguous then 1 else 0) +
        (processStream env opts excl cols).2 := by
  refine ⟨?_, ?_, ?_, rfl, ?_⟩
  · intro h
    unfold processColumn
    rw [if_pos h]
  · intro h1 h2
    unfold processColumn
    rw [if_neg h1, if_pos h2]
  · intro h1 h2 h3
    unfold processColumn
    rw [if_neg h1, if_neg (by simp [h2]), if_pos h3]
  · show (match processColumn env opts excl pc with
        | .skippedAmbiguous => 1
        | _ => 0) + (processStream env opts excl cols).2 = _
    cases processColumn env opts excl pc <;> simp

/-- C5 witness: a column with consensus `N` at a non-excluded coordinate
is skipped as ambiguous. -/
theorem call_stage_skips_witness :
    (0 ∉ ({5} : Finset ℕ)) ∧ Nuc.N.isACGT = false ∧
      processColumn envW optsNQW {5} pcAmbW = .skippedAmbiguous :=
  ⟨by decide, rfl,
    (call_stage_skips envW optsNQW {5} pcAmbW []).2.1 (by decide) rfl⟩

/-- C7: when the Fisher exact computation raises, the call is annotated
with the sentinel p-value `-1` and the Phred field `"NA"`; when it
succeeds with a (necessarily non-negative) p-value, both the raw p-value
and its Phred scaling are attached; and the emission step maps every
merged call to exactly one emitted record, dropping none. -/
theorem strandbias_failure_handling (p2p : ℚ → ℤ) (s : SNPCall) :
    ((add_strandbias_info (Except.error ()) p2p s).sb_pvalue = some (-1) ∧
     (add_strandbias_info (Except.error ()) p2p s).sb_phred =
       some PhredOrNA.NA) ∧
    (∀ p : ℚ, 0 ≤ p →
      (add_strandbias_info (Except.ok p) p2p s).sb_pvalue = some p ∧
      (add_strandbias_info (Except.ok p) p2p s).sb_phred =
        some (PhredOrNA.val (p2p p))) ∧
    (∀ (env : Env) (opts : Opts) (pc : PileupColumn) (cv : Option SNPCall)
      (cands : List SNPCall),
      ((mergeCalls cv cands).map (emitCall env opts pc)).length =
        (mergeCalls cv cands).length) := by
  refine ⟨⟨rfl, ?_⟩, ?_, ?_⟩
  · simp [add_strandbias_info]
  · intro p hp
    have hne : p ≠ -1 := by
      intro h
      rw [h] at hp
      norm_num at hp
    exact ⟨rfl, by simp [add_strandbias_info, hne]⟩
  · intro env opts pc cv cands
    exact List.length_map _ _

/-- C7 witness: with a succeeding Fisher test at p = 0 both fields are
attached, and with a raising one the sentinel and `"NA"` are attached. -/
theorem strandbias_failure_handling_witness :
    (0 : ℚ) ≤ 0 ∧
    (add_strandbias_info (Except.ok 0) (fun _ => 0) callW).sb_pvalue =
      some 0 ∧
    (add_strandbias_info (Except.ok 0) (fun _ => 0) callW).sb_phred =
      some (PhredOrNA.val 0) ∧
    (add_strandbias_info (Except.error ()) (fun _ => 0) callW).sb_pvalue =
      some (-1) ∧
    (add_strandbias_info (Except.error ()) (fun _ => 0) callW).sb_phred =
      some PhredOrNA.NA := by
  refine ⟨le_refl 0, ?_, ?_, ?_, ?_⟩
  · exact ((strandbias_failure_handling (fun _ => 0) callW).2.1 0 (le_refl 0)).1
  · exact ((strandbias_failure_handling (fun _ => 0) callW).2.1 0 (le_refl 0)).2
  · exact (strandbias_failure_handling (fun _ => 0) callW).1.1
  · exact (strandbias_failure_handling (fun _ => 0) callW).1.2

/-- C9: when the variant output path is not `-` and a file already
exists at that path, the program exits with code 1 before any pileup
processing, whatever the pileup stream holds. -/
theorem refuse_overwrite_output (env : Env) (opts : Opts)
    (fileExists : String → Bool) (excl : Finset ℕ) (minCov size : ℕ)
    (cols : List PileupColumn) (htest : opts.test_sensitivity = false)
    (hnonempty : opts.fsnp ≠ "") (hdash : opts.fsnp ≠ "-")
    (hex : fileExists opts.fsnp = true) :
    runProgram env opts false fileExists excl minCov size cols =
      .exited 1 := by
  unfold runProgram startup
  have hie : ¬ (opts.fsnp.isEmpty = true) := by
    simp only [String.isEmpty_iff]
    exact hnonempty
  rw [if_neg (by simp), if_neg (by simp [htest]), if_neg hie,
    if_pos (by simp [hdash, hex])]

/-- C9 witness: with output path `out.snp` on a filesystem where that
file exists, the run exits with code 1 for an arbitrary non-empty
pileup. -/
theorem refuse_overwrite_output_witness :
    optsC9W.fsnp ≠ "-" ∧ fexW optsC9W.fsnp = true ∧
    runProgram envW optsC9W false fexW ∅ 10 100 [pcW] = .exited 1 :=
  ⟨by decide, by decide,
    refuse_overwrite_output envW optsC9W fexW ∅ 10 100 [pcW] rfl (by decide)
      (by decide) (by decide)⟩

/-- C10: on a file whose data lines all carry at least two integer
tokens, a data line whose first token is not strictly below its second
makes `read_exclude_pos_file` abort with an assertion failure; in
particular an empty range is rejected. -/
theorem exclude_rejects_empty_range (ls : List ExLine) (s e : ℤ)
    (rest : List ℤ) (htwo : ∀ l ∈ ls, dataLineHasTwo l = true)
    (hmem : ExLine.data (s :: e :: rest) ∈ ls) (hge : e ≤ s) :
    read_exclude_pos_file ls = .error .assertionError := by
  induction ls with
  | nil => cases hmem
  | cons l tl ih =>
    have htl : ∀ l' ∈ tl, dataLineHasTwo l' = true :=
      fun l' hl' => htwo l' (List.mem_cons_of_mem _ hl')
    rcases List.mem_cons.1 hmem with heq | hm
    · subst heq
      have hnlt : ¬ s < e := not_lt.2 hge
      simp [read_exclude_pos_file, hnlt]
    · have hrec := ih htl hm
      cases l with
      | comment => simpa [read_exclude_pos_file] using hrec
      | blank => simpa [read_exclude_pos_file] using hrec
      | data toks =>
        have hhead := htwo _ (List.mem_cons_self _ _)
        rcases toks with _ | ⟨a, _ | ⟨b, r⟩⟩
        · simp [dataLineHasTwo] at hhead
        · simp [dataLineHasTwo] at hhead
        · by_cases hab : a < b
          · simp [read_exclude_pos_file, hab, hrec]
          · simp [read_exclude_pos_file, hab]

/-- C10 witness: the file consisting of a comment and the data line
`3 3 9` (an empty range) aborts with an assertion failure. -/
theorem exclude_rejects_empty_range_witness :
    (∀ l ∈ exLinesBadW, dataLineHasTwo l = true) ∧
    ExLine.data [3, 3, 9] ∈ exLinesBadW ∧
    read_exclude_pos_file exLinesBadW = .error .assertionError :=
  ⟨by decide, by decide,
    exclude_rejects_empty_range exLinesBadW 3 3 [9] (by decide) (by decide)
      (by decide)⟩

/-- C2: at a processed column whose consensus differs from the
reference, exactly one consensus-var call is emitted; it carries
`ref = ref_base`, `alt = cons_base` and
`freq = count(cons_base) / coverage` at min-quality 3 with N dropped;
and no emitted low-frequency call has the original reference base as its
variant. -/
theorem consensus_var_merge (env : Env) (opts : Opts) (excl : Finset ℕ)
    (pc : PileupColumn) (hex : pc.coord ∉ excl)
    (hacgt : pc.cons_base.isACGT = true) (hne : pc.cons_base ≠ pc.ref_base)
    (hcov : pc.coverage3 ≠ 0) :
    (emissionOf env opts excl pc).countP
        (fun e => decide (e.call.vtype = some VType.consensusVar)) = 1 ∧
    ∀ e ∈ emissionOf env opts excl pc,
      (e.call.vtype = some VType.consensusVar →
        e.call.wildtype = pc.ref_base ∧ e.call.variant = pc.cons_base ∧
        e.call.freq =
          (pc.baseCounts3.get pc.cons_base : ℚ) / (pc.coverage3 : ℚ)) ∧
      (e.call.vtype = some VType.lowFreqVar →
        e.call.variant ≠ pc.ref_base) := by
  rw [emissionOf_emitted env opts excl pc hex hacgt hcov,
    consVarSnp_eq pc hne]
  generalize columnCandidates opts.lofreq_nq_on opts.lofreq_q_on
    (env.nqCall pc.coord pc.baseCounts3 pc.cons_base)
    (env.qCall pc.coord pc.histNoN pc.cons_base) = cands
  simp only [mergeCalls, List.map_append, List.map_cons, List.map_nil]
  constructor
  · rw [List.countP_append]
    have h0 : (((cands.map setLowFreq).filter
        (fun s => decide (s.variant ≠ pc.ref_base))).map
          (emitCall env opts pc)).countP
        (fun e => decide (e.call.vtype = some VType.consensusVar)) = 0 := by
      rw [List.countP_eq_zero]
      intro e he
      obtain ⟨a, ha, rfl⟩ := List.mem_map.1 he
      have hv : a.vtype = some VType.lowFreqVar :=
        vtype_of_mem_setLowFreq (List.mem_filter.1 ha).1
      simp [emitCall_call_vtype, hv]
    rw [h0]
    simp [emitCall_call_vtype]
  · intro e he
    rcases List.mem_append.1 he with hl | hr
    · obtain ⟨a, ha, rfl⟩ := List.mem_map.1 hl
      have hv : a.vtype = some VType.lowFreqVar :=
        vtype_of_mem_setLowFreq (List.mem_filter.1 ha).1
      constructor
      · intro hcontra
        rw [emitCall_call_vtype, hv] at hcontra
        cases hcontra
      · intro _
        have hkeep := (List.mem_filter.1 ha).2
        rw [emitCall_call_variant]
        simpa using hkeep
    · rw [List.mem_singleton.1 hr]
      constructor
      · intro _
        exact ⟨rfl, rfl, rfl⟩
      · intro hcontra
        rw [emitCall_call_vtype] at hcontra
        cases hcontra

/-- C2 witness: on the concrete column with reference G and consensus A,
the emission contains exactly one consensus-var call with the claimed
fields and no low-frequency call whose variant is G. -/
theorem consensus_var_merge_witness :
    pcCvW.cons_base ≠ pcCvW.ref_base ∧ pcCvW.coverage3 ≠ 0 ∧
    ((emissionOf envW optsNQW ∅ pcCvW).countP
        (fun e => decide (e.call.vtype = some VType.consensusVar)) = 1 ∧
    ∀ e ∈ emissionOf envW optsNQW ∅ pcCvW,
      (e.call.vtype = some VType.consensusVar →
        e.call.wildtype = pcCvW.ref_base ∧
        e.call.variant = pcCvW.cons_base ∧
        e.call.freq =
          (pcCvW.baseCounts3.get pcCvW.cons_base : ℚ) /
            (pcCvW.coverage3 : ℚ)) ∧
      (e.call.vtype = some VType.lowFreqVar →
        e.call.variant ≠ pcCvW.ref_base)) :=
  ⟨by decide, by decide,
    consensus_var_merge envW optsNQW ∅ pcCvW (by decide) (by decide)
      (by decide) (by decide)⟩

/-- Auxiliary characterisation of the training pull loop, for any number
of already selected sample columns. -/
theorem trainPullAux_spec (excl : Finset ℕ) (minCov size : ℕ)
    (cols : List PileupColumn) :
    ∀ cnt : ℕ, cnt < size →
      (trainPullAux excl minCov size cnt cols).buffer ++
        (trainPullAux excl minCov size cnt cols).rest = cols ∧
      (trainPullAux excl minCov size cnt cols).sample =
        ((trainPullAux excl minCov size cnt cols).buffer.filter
          (tUsable excl minCov)).map PileupColumn.baseCounts3 ∧
      (trainPullAux excl minCov size cnt cols).consSeq =
        ((trainPullAux excl minCov size cnt cols).buffer.filter
          (tUsable excl minCov)).map PileupColumn.cons_base ∧
      cnt + (trainPullAux excl minCov size cnt cols).sample.length ≤ size ∧
      ((trainPullAux excl minCov size cnt cols).rest ≠ [] →
        cnt + (trainPullAux excl minCov size cnt cols).sample.length =
          size) ∧
      (cols ≠ [] → (trainPullAux excl minCov size cnt cols).buffer ≠ []) := by
  induction cols with
  | nil =>
    intro cnt hlt
    refine ⟨rfl, rfl, rfl, ?_, ?_, ?_⟩
    · simpa [trainPullAux] using hlt.le
    · intro h
      simp [trainPullAux] at h
    · intro h
      simp at h
  | cons pc tl ih =>
    intro cnt hlt
    by_cases hu : tUsable excl minCov pc
    · by_cases hst : size ≤ cnt + 1
      · have hsz : cnt + 1 = size := le_antisymm hlt hst
        simp [trainPullAux, hu, hst, List.filter_cons_of_pos hu, hsz]
      · have hrec := ih (cnt + 1) (lt_of_not_le hst)
        simp only [trainPullAux, hu, if_true, if_neg hst]
        refine ⟨by rw [List.cons_append, hrec.1], ?_, ?_, ?_, ?_, ?_⟩
        · rw [List.filter_cons_of_pos hu, List.map_cons, hrec.2.1]
        · rw [List.filter_cons_of_pos hu, List.map_cons, hrec.2.2.1]
        · have := hrec.2.2.2.1
          simpa [Nat.add_comm, Nat.add_assoc, Nat.add_left_comm] using this
        · intro h
          have := hrec.2.2.2.2.1 h
          simp only [List.length_cons]
          omega
        · intro _
          simp
    · have hrec := ih cnt hlt
      simp only [trainPullAux, hu, if_false, Bool.false_eq_true]
      refine ⟨by rw [List.cons_append, hrec.1], ?_, ?_, hrec.2.2.2.1, ?_, ?_⟩
      · rw [List.filter_cons_of_neg (by simp [hu]), hrec.2.1]
      · rw [List.filter_cons_of_neg (by simp [hu]), hrec.2.2.1]
      · exact hrec.2.2.2.2.1
      · intro _
        simp

/-- C6: in the TRAIN stage every pulled line is buffered (the buffer and
the unread remainder partition the stream in order), the sample consists
exactly of the usable buffered columns (not excluded, unambiguous
consensus, coverage at min-quality 3 with N dropped at least the
training minimum), pulling stops when the sample reaches the configured
size or the stream ends, and a non-empty stream with no usable column
makes the stage exit fatally with code 1. -/
theorem train_stage_selection (opts : Opts) (excl : Finset ℕ)
    (minCov size : ℕ) (cols : List PileupColumn) (hsize : 0 < size)
    (hnq : opts.lofreq_nq_on = true)
    (hfile : opts.em_error_prob_file = none) :
    (trainPull excl minCov size cols).buffer ++
      (trainPull excl minCov size cols).rest = cols ∧
    (trainPull excl minCov size cols).sample =
      ((trainPull excl minCov size cols).buffer.filter
        (tUsable excl minCov)).map PileupColumn.baseCounts3 ∧
    (trainPull excl minCov size cols).sample.length ≤ size ∧
    ((trainPull excl minCov size cols).rest ≠ [] →
      (trainPull excl minCov size cols).sample.length = size) ∧
    (cols ≠ [] → (trainPull excl minCov size cols).sample = [] →
      trainStage opts excl minCov size cols = .fatal 1) := by
  have h := trainPullAux_spec excl minCov size cols 0 hsize
  refine ⟨h.1, h.2.1, by simpa using h.2.2.2.1, ?_, ?_⟩
  · intro hrest
    simpa using h.2.2.2.2.1 hrest
  · intro hcols hsamp
    have hbuf : (trainPull excl minCov size cols).buffer ≠ [] :=
      h.2.2.2.2.2 hcols
    unfold trainStage
    rw [if_pos (by simp [hnq, hfile])]
    rw [if_neg (by simpa [List.isEmpty_iff] using hbuf),
      if_pos (by simpa [List.isEmpty_iff] using hsamp)]

/-- C6 witness: a one-column stream whose column is below the training
minimum coverage is fully buffered, yields an empty sample, and makes
the training stage exit fatally. -/
theorem train_stage_selection_witness :
    ([pcEmptyW] : List PileupColumn) ≠ [] ∧
    (trainPull ∅ 5 1 [pcEmptyW]).sample = [] ∧
    (trainPull ∅ 5 1 [pcEmptyW]).buffer ++ (trainPull ∅ 5 1 [pcEmptyW]).rest =
      [pcEmptyW] ∧
    trainStage optsNQW ∅ 5 1 [pcEmptyW] = .fatal 1 :=
  ⟨by decide, by decide,
    (train_stage_selection optsNQW ∅ 5 1 [pcEmptyW] (by decide) rfl rfl).1,
    (train_stage_selection optsNQW ∅ 5 1 [pcEmptyW] (by decide) rfl
      rfl).2.2.2.2 (by decide) (by decide)⟩

/-- C8: on a file whose data lines each start with two integers in
strictly increasing order, `read_exclude_pos_file` returns exactly the
set of integers covered by the union of the half-open ranges, ignoring
comment lines, blank lines, and tokens after the first two. -/
theorem read_exclude_pos_file_ranges (ls : List ExLine)
    (h : ∀ l ∈ ls, dataLineOK l = true) :
    ∃ S, read_exclude_pos_file ls = .ok S ∧
      ∀ x : ℤ, x ∈ S ↔
        ∃ s e rest, ExLine.data (s :: e :: rest) ∈ ls ∧ s ≤ x ∧ x < e := by
  induction ls with
  | nil =>
    refine ⟨∅, rfl, ?_⟩
    intro x
    simp
  | cons l tl ih =>
    have htl : ∀ l' ∈ tl, dataLineOK l' = true :=
      fun l' hl' => h l' (List.mem_cons_of_mem _ hl')
    obtain ⟨S, hS, hmem⟩ := ih htl
    cases l with
    | comment =>
      refine ⟨S, by simpa [read_exclude_pos_file] using hS, ?_⟩
      intro x
      rw [hmem]
      constructor
      · rintro ⟨s, e, rest, hm, h1, h2⟩
        exact ⟨s, e, rest, List.mem_cons_of_mem _ hm, h1, h2⟩
      · rintro ⟨s, e, rest, hm, h1, h2⟩
        rcases List.mem_cons.1 hm with heq | hm'
        · cases heq
        · exact ⟨s, e, rest, hm', h1, h2⟩
    | blank =>
      refine ⟨S, by simpa [read_exclude_pos_file] using hS, ?_⟩
      intro x
      rw [hmem]
      constructor
      · rintro ⟨s, e, rest, hm, h1, h2⟩
        exact ⟨s, e, rest, List.mem_cons_of_mem _ hm, h1, h2⟩
      · rintro ⟨s, e, rest, hm, h1, h2⟩
        rcases List.mem_cons.1 hm with heq | hm'
        · cases heq
        · exact ⟨s, e, rest, hm', h1, h2⟩
    | data toks =>
      have hok := h _ (List.mem_cons_self _ _)
      rcases toks with _ | ⟨s, _ | ⟨e, rest⟩⟩
      · simp [dataLineOK] at hok
      · simp [dataLineOK] at hok
      · have hlt : s < e := by simpa [dataLineOK] using hok
        refine ⟨Finset.Ico s e ∪ S, by simp [read_exclude_pos_file, hlt, hS], ?_⟩
        intro x
        simp only [Finset.mem_union, Finset.mem_Ico, hmem]
        constructor
        · rintro (⟨h1, h2⟩ | ⟨s', e', rest', hm, h1, h2⟩)
          · exact ⟨s, e, rest, List.mem_cons_self _ _, h1, h2⟩
          · exact ⟨s', e', rest', List.mem_cons_of_mem _ hm, h1, h2⟩
        · rintro ⟨s', e', rest', hm, h1, h2⟩
          rcases List.mem_cons.1 hm with heq | hm'
          · simp only [ExLine.data.injEq, List.cons.injEq] at heq
            obtain ⟨rfl, rfl, rfl⟩ := heq
            exact Or.inl ⟨h1, h2⟩
          · exact Or.inr ⟨s', e', rest', hm', h1, h2⟩

/-- C8 witness: the concrete file with ranges `[0,2)` (with a trailing
token) and `[5,6)` parses to a set, and 1 is covered while 4 is not. -/
theorem read_exclude_pos_file_ranges_witness :
    (∀ l ∈ exLinesW, dataLineOK l = true) ∧
    ∃ S, read_exclude_pos_file exLinesW = .ok S ∧
      ∀ x : ℤ, x ∈ S ↔
        ∃ s e rest, ExLine.data (s :: e :: rest) ∈ exLinesW ∧
          s ≤ x ∧ x < e :=
  ⟨by decide, read_exclude_pos_file_ranges exLinesW (by decide)⟩

/-- C4: every emitted call's DP4 tuple consists of the strand-split
counts of the call's wildtype and variant bases, with the reference
filter `ign_bases_below_q` and the variant filter
`max(ign_bases_below_q, noncons_filter_qual)` when the Q caller is
enabled, and both filters zero when only the NQ caller is enabled. -/
theorem dp4_strand_filters (env : Env) (opts : Opts) (excl : Finset ℕ)
    (pc : PileupColumn) (e : EmittedCall)
    (he : e ∈ emissionOf env opts excl pc) :
    e.dp4 =
      ((pc.get_counts_for_base e.call.wildtype
          (if opts.lofreq_q_on then opts.ign_bases_below_q else 0)).1,
       (pc.get_counts_for_base e.call.wildtype
          (if opts.lofreq_q_on then opts.ign_bases_below_q else 0)).2,
       (pc.get_counts_for_base e.call.variant
          (if opts.lofreq_q_on then
            max opts.ign_bases_below_q opts.noncons_filter_qual else 0)).1,
       (pc.get_counts_for_base e.call.variant
          (if opts.lofreq_q_on then
            max opts.ign_bases_below_q opts.noncons_filter_qual else 0)).2) := by
  by_cases hex : pc.coord ∈ excl
  · rw [show emissionOf env opts excl pc = [] from by
      unfold emissionOf processColumn
      rw [if_pos hex]] at he
    cases he
  · by_cases hacgt : pc.cons_base.isACGT = false
    · rw [show emissionOf env opts excl pc = [] from by
        unfold emissionOf processColumn
        rw [if_neg hex, if_pos hacgt]] at he
      cases he
    · have hacgt' : pc.cons_base.isACGT = true := by
        cases h : pc.cons_base.isACGT
        · exact absurd h hacgt
        · rfl
      by_cases hcov : pc.coverage3 = 0
      · rw [show emissionOf env opts excl pc = [] from by
          unfold emissionOf processColumn
          rw [if_neg hex, if_neg (by simp [hacgt']), if_pos hcov]] at he
        cases he
      · rw [emissionOf_emitted env opts excl pc hex hacgt' hcov] at he
        obtain ⟨s, -, rfl⟩ := List.mem_map.1 he
        rfl

/-- C4 witness: on the concrete mixed-quality column with the Q caller
enabled, the emitted call's DP4 is `(1, 1, 1, 0)`: both A reads pass the
reference filter 13, while of the two C reads only the forward one
passes the variant filter `max 13 20 = 20`. -/
theorem dp4_strand_filters_witness :
    (emissionOf envW optsQW ∅ pcW).headI ∈ emissionOf envW optsQW ∅ pcW ∧
    ((emissionOf envW optsQW ∅ pcW).headI).dp4 = (1, 1, 1, 0) :=
  ⟨by decide,
    (dp4_strand_filters envW optsQW ∅ pcW _ (by decide)).trans (by decide)⟩

/-- C3 (amended): across columns, emitted calls appear in pileup input
order; within a column the low-frequency calls appear in fixed
`A, C, G, T` order of their variant base (given callers that report in
that order), and a merged consensus-var call is appended after them
regardless of its own alt base — so the full within-column list is in
`A, C, G, T` order only when no consensus-var call is merged. -/
theorem emission_order (env : Env) (opts : Opts) (excl : Finset ℕ)
    (hnq : ∀ (c : ℕ) (bc : BaseCounts) (cons : Nuc),
      ((env.nqCall c bc cons).map (fun s => altKey s.variant)).Sorted (· ≤ ·))
    (hq : ∀ (c : ℕ) (qhist : Nuc → ℕ → ℕ) (cons : Nuc),
      ((env.qCall c qhist cons).map (fun s => altKey s.variant)).Sorted (· ≤ ·)) :
    (∀ cols : List PileupColumn,
      (processStream env opts excl cols).1 =
        cols.flatMap (emissionOf env opts excl)) ∧
    (∀ (pc : PileupColumn) (out : List EmittedCall),
      processColumn env opts excl pc = .emitted out →
      ∃ lf cvpart, out = lf ++ cvpart ∧
        (lf.map (fun e => altKey e.call.variant)).Sorted (· ≤ ·) ∧
        (∀ e ∈ lf, e.call.vtype = some VType.lowFreqVar) ∧
        (cvpart = [] ∨
          ∃ ecv, cvpart = [ecv] ∧
            ecv.call.vtype = some VType.consensusVar)) := by
  constructor
  · intro cols
    induction cols with
    | nil => rfl
    | cons pc tl ih => simp [processStream, ih]
  · intro pc out hpc
    by_cases hex : pc.coord ∈ excl
    · rw [show processColumn env opts excl pc = .skippedExcluded from by
        unfold processColumn
        rw [if_pos hex]] at hpc
      cases hpc
    by_cases hacgt : pc.cons_base.isACGT = false
    · rw [show processColumn env opts excl pc = .skippedAmbiguous from by
        unfold processColumn
        rw [if_neg hex, if_pos hacgt]] at hpc
      cases hpc
    have hacgt' : pc.cons_base.isACGT = true := by
      cases h : pc.cons_base.isACGT
      · exact absurd h hacgt
      · rfl
    by_cases hcov : pc.coverage3 = 0
    · rw [show processColumn env opts excl pc = .skippedZeroCov from by
        unfold processColumn
        rw [if_neg hex, if_neg (by simp [hacgt']), if_pos hcov]] at hpc
      cases hpc
    rw [processColumn_emitted env opts excl pc hex hacgt' hcov] at hpc
    injection hpc with hout
    subst hout
    have hcands : (columnCandidates opts.lofreq_nq_on opts.lofreq_q_on
        (env.nqCall pc.coord pc.baseCounts3 pc.cons_base)
        (env.qCall pc.coord pc.histNoN pc.cons_base)).Pairwise
        (fun a b => altKey a.variant ≤ altKey b.variant) := by
      rw [columnCandidates_eq]
      by_cases h1 : (opts.lofreq_q_on && (!opts.lofreq_nq_on ||
          !(env.nqCall pc.coord pc.baseCounts3 pc.cons_base).isEmpty)) = true
      · rw [if_pos h1]
        exact List.pairwise_map.1 (hq _ _ _)
      · rw [if_neg h1]
        by_cases h2 : opts.lofreq_nq_on = true
        · rw [if_pos h2]
          exact List.pairwise_map.1 (hnq _ _ _)
        · rw [if_neg h2]
          exact List.Pairwise.nil
    cases hcv : consVarSnp pc with
    | none =>
      refine ⟨((columnCandidates opts.lofreq_nq_on opts.lofreq_q_on
          (env.nqCall pc.coord pc.baseCounts3 pc.cons_base)
          (env.qCall pc.coord pc.histNoN pc.cons_base)).map setLowFreq).map
            (emitCall env opts pc), [],
        by simp [mergeCalls], ?_, ?_, Or.inl rfl⟩
      · simp only [List.Sorted, List.pairwise_map]
        exact hcands
      · intro e he
        obtain ⟨a, ha, rfl⟩ := List.mem_map.1 he
        obtain ⟨b, -, rfl⟩ := List.mem_map.1 ha
        rfl
    | some cv =>
      refine ⟨(((columnCandidates opts.lofreq_nq_on opts.lofreq_q_on
          (env.nqCall pc.coord pc.baseCounts3 pc.cons_base)
          (env.qCall pc.coord pc.histNoN pc.cons_base)).map
            setLowFreq).filter
              (fun s => decide (s.variant ≠ cv.wildtype))).map
                (emitCall env opts pc),
        [emitCall env opts pc cv], by simp [mergeCalls], ?_, ?_,
        Or.inr ⟨emitCall env opts pc cv, rfl, ?_⟩⟩
      · have hc2 : ((columnCandidates opts.lofreq_nq_on opts.lofreq_q_on
            (env.nqCall pc.coord pc.baseCounts3 pc.cons_base)
            (env.qCall pc.coord pc.histNoN pc.cons_base)).map
              setLowFreq).Pairwise
            (fun a b => altKey a.variant ≤ altKey b.variant) :=
          List.pairwise_map.2 hcands
        have hc3 : (((columnCandidates opts.lofreq_nq_on opts.lofreq_q_on
            (env.nqCall pc.coord pc.baseCounts3 pc.cons_base)
            (env.qCall pc.coord pc.histNoN pc.cons_base)).map
              setLowFreq).filter
                (fun s => decide (s.variant ≠ cv.wildtype))).Pairwise
            (fun a b => altKey a.variant ≤ altKey b.variant) :=
          List.Pairwise.sublist (List.filter_sublist _) hc2
        simp only [List.Sorted, List.pairwise_map]
        exact hc3
      · intro e he
        obtain ⟨a, ha, rfl⟩ := List.mem_map.1 he
        have hv : a.vtype = some VType.lowFreqVar :=
          vtype_of_mem_setLowFreq (List.mem_filter.1 ha).1
        rw [emitCall_call_vtype]
        exact hv
      · rw [emitCall_call_vtype]
        exact consVarSnp_vtype hcv

/-- C3 (amended) witness: with callers reporting a single candidate (a
trivially ordered list), the stream emission over two concrete columns
equals the in-order concatenation of the per-column emissions. -/
theorem emission_order_witness :
    (∀ (c : ℕ) (bc : BaseCounts) (cons : Nuc),
      ((envW.nqCall c bc cons).map (fun s => altKey s.variant)).Sorted
        (· ≤ ·)) ∧
    (processStream envW optsNQW ∅ [pcW, pcCvW]).1 =
      [pcW, pcCvW].flatMap (emissionOf envW optsNQW ∅) :=
  ⟨fun _ _ _ => by simp [envW],
    (emission_order envW optsNQW ∅ (fun _ _ _ => by simp [envW])
      (fun _ _ _ => by simp [envW])).1 [pcW, pcCvW]⟩

/-- Evaluation of a `filterMap` over a single element whose image is
known. -/
theorem filterMap_singleton_of_eq {α β : Type} (f : α → Option β) (a : α)
    (b : β) (h : f a = some b) : List.filterMap f [a] = [b] := by
  simp [h]

/-- C3 counterexample: on the column `pcol3` (reference G, consensus A,
counts A:2 C:1) with the spec-modelled NQ caller, the pipeline emits the
low-frequency C call first and then the consensus-var call with alt A,
so the within-column variant keys are `[1, 0]` — not in the fixed
`A, C, G, T` order the claim asserts. -/
theorem within_column_order_cex :
    (emissionOf env3 optsNQW ∅ pcol3).map (fun e => altKey e.call.variant) =
      [1, 0] ∧
    ¬ ((emissionOf env3 optsNQW ∅ pcol3).map
        (fun e => altKey e.call.variant)).Sorted (· ≤ ·) := by
  have hbt : binomTail 3 1 ((1 : ℚ)/2) = 7/8 := by
    norm_num [binomTail, List.range_succ]
  have hnq : env3.nqCall pcol3.coord pcol3.baseCounts3 pcol3.cons_base =
      [cCall] := by
    have hbc : pcol3.baseCounts3 = ⟨2, 1, 0, 0⟩ := by decide
    rw [hbc]
    show nqCallerSpec (fun _ _ => (1 : ℚ)/2) 1 1 pcol3.coord ⟨2, 1, 0, 0⟩
      pcol3.cons_base = [cCall]
    unfold nqCallerSpec
    rw [show List.filter (fun v => decide (v ≠ pcol3.cons_base) &&
        decide (BaseCounts.get ⟨2, 1, 0, 0⟩ v ≠ 0)) ACGT = [Nuc.C] from by
      decide]
    apply filterMap_singleton_of_eq
    dsimp only
    rw [if_pos ?_]
    · rfl
    · rw [show BaseCounts.total ⟨2, 1, 0, 0⟩ = 3 from rfl,
        show BaseCounts.get ⟨2, 1, 0, 0⟩ Nuc.C = 1 from rfl, hbt]
      norm_num
  have hemit : emissionOf env3 optsNQW ∅ pcol3 =
      (mergeCalls (consVarSnp pcol3) [cCall]).map
        (emitCall env3 optsNQW pcol3) := by
    unfold emissionOf
    rw [processColumn_emitted env3 optsNQW ∅ pcol3 (by decide) (by decide)
      (by decide), hnq]
    rfl
  have hkeys : (emissionOf env3 optsNQW ∅ pcol3).map
      (fun e => altKey e.call.variant) = [1, 0] := by
    rw [hemit]
    decide
  refine ⟨hkeys, ?_⟩
  rw [hkeys]
  decide

end LoFreq
